import Mathlib

/-!
Verification of the mount-state migration tool
(`crusoe_shared_disks_migrate.py`) against its specification.

Python strings are modelled as `List Char`.  The helpers below model the
Python string primitives the tool uses: `str.strip`, `str.split()` (split on
whitespace runs, dropping empty fields), `str.split(sep)`, `sep.join`,
`str.startswith`, and the `in` substring test.
-/

set_option maxHeartbeats 1000000
set_option maxRecDepth 8192

namespace Migrate

abbrev Str := List Char

/-- Model of Python `str.isspace` for the characters relevant here
(space, tab, newline, carriage return). -/
def pyWs (c : Char) : Bool := c.isWhitespace

/-- Remove trailing whitespace (the right half of Python `str.strip`). -/
def rightTrim : Str → Str
  | [] => []
  | c :: rest =>
    let r := rightTrim rest
    if r = [] && pyWs c then [] else c :: r

/-- Model of Python `str.strip()`: drop leading and trailing whitespace. -/
def pyStrip (s : Str) : Str := rightTrim (s.dropWhile pyWs)

/-- Accumulator worker for `wsTokens`; `acc` holds the reversed current token. -/
def wsTokensAcc : Str → Str → List Str
  | [], acc => if acc = [] then [] else [acc.reverse]
  | c :: rest, acc =>
    if pyWs c then
      if acc = [] then wsTokensAcc rest [] else acc.reverse :: wsTokensAcc rest []
    else wsTokensAcc rest (c :: acc)

/-- Model of Python `str.split()` with no argument: the maximal
whitespace-free tokens of the string, in order, no empty tokens. -/
def wsTokens (s : Str) : List Str := wsTokensAcc s []

/-- Model of Python `str.split(sep)` for a one-character separator
(used with `","` and `"\n"`); empty fields are kept, `"".split(sep) = [""]`. -/
def splitOnChar (sep : Char) : Str → List Str
  | [] => [[]]
  | c :: rest =>
    if c = sep then [] :: splitOnChar sep rest
    else
      match splitOnChar sep rest with
      | [] => [[c]]
      | t :: ts => (c :: t) :: ts

/-- Model of Python `sep.join(parts)` for a one-character separator. -/
def joinChar (sep : Char) : List Str → Str
  | [] => []
  | [l] => l
  | l :: ls => l ++ sep :: joinChar sep ls

/-- Model of Python `sep in s` (substring containment). -/
def hasSub (sep : Str) : Str → Bool
  | [] => sep.isEmpty
  | c :: rest => sep.isPrefixOf (c :: rest) || hasSub sep rest

/-- The characters after the first occurrence of `sep` (empty when absent). -/
def afterFirst (sep : Str) : Str → Str
  | [] => []
  | c :: rest =>
    if sep.isPrefixOf (c :: rest) then (c :: rest).drop sep.length
    else afterFirst sep rest

/-- The characters before the first occurrence of `sep`
(the whole string when absent).  Equals Python `s.split(sep)[0]`. -/
def upToSub (sep : Str) : Str → Str
  | [] => []
  | c :: rest => if sep.isPrefixOf (c :: rest) then [] else c :: upToSub sep rest

/-- Model of Python `s.split(sep)[1]` (meaningful when `sep in s`): the
characters strictly between the first occurrence of `sep` and the next
occurrence (or the end of the string). -/
def splitIdx1 (sep : Str) (s : Str) : Str := upToSub sep (afterFirst sep s)

/-- Model of Python `str.lower()` on the ASCII error strings used here. -/
def toLowerStr (s : Str) : Str := s.map Char.toLower

/-! ### Program constants (START statics block and literal strings) -/

/-- Constant `CRUSOE_NFS_DOMAIN = "nfs.crusoecloudcompute.com"`. -/
def crusoeDomain : Str := "nfs.crusoecloudcompute.com".data

/-- The fixed volume-namespace delimiter `":/volumes/"`. -/
def volSep : Str := ":/volumes/".data

/-- The substring tested against a failed `findmnt` error message. -/
def noMountsMarker : Str := "no mounts found".data

/-- The managed filesystem type literal `"nfs"`. -/
def nfsLit : Str := "nfs".data

/-- The systemd-automount option marker `"x-systemd."`. -/
def sysdMarker : Str := "x-systemd.".data

/-- The DNS-resolution option marker `"remoteports=dns"`. -/
def dnsMarker : Str := "remoteports=dns".data

/-! ### Data model

A mount record as built by `get_current_mounts` / `get_remote_mounts`
(`{"mount_point": ..., "volume_id": ..., "ip_address": ..., "options": ...}`),
the per-VM entry stored in `mounts.json`
(`{"ip": ..., "mounts": [...]}`), and the checkpoint mapping
`vm_name -> entry` (a Python dict in insertion order, modelled as an
association list). -/

structure MountRecord where
  mount_point : Str
  volume_id : Str
  ip_address : Str
  options : Str
deriving DecidableEq

structure VMData where
  ip : Str
  mounts : List MountRecord
deriving DecidableEq

abbrev Checkpoint := List (Str × VMData)

/-- Total number of recorded mounts, as summed over `all_vm_mounts` in
`do_unmount` (and over the loaded mapping in `load_vm_mounts`). -/
def totalMounts (ck : Checkpoint) : Nat :=
  (ck.map fun p => p.2.mounts.length).sum

/-! ### JSON documents

A minimal JSON value type covering what `json.dump`/`json.load` exchange for
the checkpoint file: strings, arrays and (ordered) objects. -/

inductive Json where
  | str (s : Str)
  | arr (xs : List Json)
  | obj (fields : List (Str × Json))

/-- Key lookup in a JSON object field list (Python `dict` access / `.get`). -/
def jLookup (k : Str) : List (Str × Json) → Option Json
  | [] => none
  | (k', v) :: rest => if k' = k then some v else jLookup k rest

/-- Python `target.get(key, "")` where a string is expected: a missing or
non-string field yields the empty string. -/
def jGetStr (fields : List (Str × Json)) (k : Str) : Str :=
  match jLookup k fields with
  | some (Json.str s) => s
  | _ => []

/-! ### Checkpoint store (`json.dump` in `do_unmount`, `load_vm_mounts`) -/

def encodeMount (m : MountRecord) : Json :=
  Json.obj [("mount_point".data, Json.str m.mount_point),
            ("volume_id".data, Json.str m.volume_id),
            ("ip_address".data, Json.str m.ip_address),
            ("options".data, Json.str m.options)]

def encodeVMData (d : VMData) : Json :=
  Json.obj [("ip".data, Json.str d.ip),
            ("mounts".data, Json.arr (d.mounts.map encodeMount))]

/-- Serialization of `all_vm_mounts` as written by
`json.dump(all_vm_mounts, f, indent=2)` (modelled at the JSON-value level). -/
def save_vm_mounts (ck : Checkpoint) : Json :=
  Json.obj (ck.map fun p => (p.1, encodeVMData p.2))

/-- Decode every element of a list, failing if any element fails. -/
def optMapM {α β : Type} (f : α → Option β) : List α → Option (List β)
  | [] => some []
  | a :: rest =>
    match f a, optMapM f rest with
    | some b, some bs => some (b :: bs)
    | _, _ => none

def decodeMount : Json → Option MountRecord
  | Json.obj fields =>
    match jLookup "mount_point".data fields, jLookup "volume_id".data fields,
          jLookup "ip_address".data fields, jLookup "options".data fields with
    | some (Json.str mp), some (Json.str vid), some (Json.str ip), some (Json.str o) =>
      some ⟨mp, vid, ip, o⟩
    | _, _, _, _ => none
  | _ => none

def decodeVMData : Json → Option VMData
  | Json.obj fields =>
    match jLookup "ip".data fields, jLookup "mounts".data fields with
    | some (Json.str ip), some (Json.arr ms) =>
      match optMapM decodeMount ms with
      | some mounts => some ⟨ip, mounts⟩
      | none => none
    | _, _ => none
  | _ => none

def decodeCheckpoint : Json → Option Checkpoint
  | Json.obj fields =>
    optMapM (fun p =>
      match decodeVMData p.2 with
      | some d => some (p.1, d)
      | none => none) fields
  | _ => none

/-- Model of `load_vm_mounts`: `None` when the mounts file is absent (the script
prints the "run unmount first" message and aborts), otherwise the decoded
document. -/
def load_vm_mounts (file : Option Json) : Option Checkpoint :=
  match file with
  | none => none
  | some j => decodeCheckpoint j

/-! ### Mount inventory collector (`get_remote_mounts`) -/

/-- Outcome of `run_remote_command(host, "findmnt -t nfs --json")`.
`run_command` returns `(stdout, None)` on success and `(None, error)` on
failure, so `failure` carries only the error string (in the failure branch
`out` is `None`, hence the Python test `out == ""` there is `False`).
On success, `parsed` models the result of `json.loads(stdout)`:
`none` stands for a `json.JSONDecodeError`. -/
inductive FindmntResult where
  | failure (msg : Str)
  | success (stdout : Str) (parsed : Option Json)

/-- One element of `mounts_json["filesystems"]`: keep it only when its
source contains `":/volumes/"`, splitting the source into
`ip_address`/`volume_id` on that delimiter (lines 226-245). -/
def parseFilesystem : Json → Option MountRecord
  | Json.obj t =>
    let source := jGetStr t "source".data
    let mount_point := jGetStr t "target".data
    let options := jGetStr t "options".data
    if hasSub volSep source then
      some ⟨mount_point, splitIdx1 volSep source, upToSub volSep source, options⟩
    else none
  | _ => none

/-- The mount list extracted from the parsed JSON document
(`mounts_json.get("filesystems", [])`). -/
def extractMounts : Json → List MountRecord
  | Json.obj fields =>
    match jLookup "filesystems".data fields with
    | some (Json.arr ts) => ts.filterMap parseFilesystem
    | _ => []
  | _ => []

/-- Model of `get_remote_mounts` (lines 206-247): `some []` for "no mounts",
`none` for a collection or parse error, `some ms` otherwise. -/
def get_remote_mounts : FindmntResult → Option (List MountRecord)
  | FindmntResult.failure msg =>
    if hasSub noMountsMarker (toLowerStr msg) then some [] else none
  | FindmntResult.success out parsed =>
    if out = [] then some []
    else
      match parsed with
      | none => none
      | some j => some (extractMounts j)

/-- The live inventory as used by `do_remount` (lines 412-414) and
`do_rollback` (lines 565-567): a collection error (`None`) is coerced to
the empty list before computing mount-point sets. -/
def remountLiveMounts (r : FindmntResult) : List MountRecord :=
  (get_remote_mounts r).getD []

/-! ### Capture phase (`do_unmount`) -/

/-- An entry of `icat-vms.json` after the `load_vms` public-IP filter. -/
structure VMEntry where
  name : Str
  public_ip : Str
deriving DecidableEq

/-- The collection loop of `do_unmount` (lines 272-293): hosts whose
collection fails (`None`) are skipped; hosts with zero mounts are still
recorded. -/
def unmountCollect (query : Str → FindmntResult) : List VMEntry → Checkpoint
  | [] => []
  | vm :: rest =>
    match get_remote_mounts (query vm.public_ip) with
    | none => unmountCollect query rest
    | some ms => (vm.name, ⟨vm.public_ip, ms⟩) :: unmountCollect query rest

/-- The checkpoint-file effect of `do_unmount` (lines 302-311 and 319-322,
auto-confirm path): when zero mounts were collected, an existing mounts file
is preserved and only a missing one is written; otherwise the collected
mapping is saved. -/
def captureSaveFile (ck : Checkpoint) (file : Option Json) : Option Json :=
  if totalMounts ck = 0 then
    match file with
    | some content => some content
    | none => some (save_vm_mounts ck)
  else some (save_vm_mounts ck)

/-! ### Remote commands issued by the transition executor

The shell command strings built by `do_unmount`, `do_remount` and
`do_rollback` are modelled structurally, one constructor per `f`-string. -/

inductive RemoteCmd where
  /-- Command `sudo umount '<mount_point>'` (lines 341 and 615). -/
  | umount (mount_point : Str)
  /-- Command `sudo mkdir -p '<mount_point>'` (lines 476 and 643). -/
  | mkdirp (mount_point : Str)
  /-- Command `sudo mount -o vers=3,nconnect=16,spread_reads,spread_writes,remoteports=dns
      nfs.crusoecloudcompute.com:/volumes/<vid> '<mp>'` (lines 482-485). -/
  | mountDns (volume_id mount_point : Str)
  /-- Command `sudo mount -o <options> <ip>:/volumes/<vid> '<mp>'` (line 651). -/
  | mountOpts (options ip_address volume_id mount_point : Str)
  /-- Command `sudo mount -t nfs <ip>:/volumes/<vid> '<mp>'` (line 653). -/
  | mountBasic (ip_address volume_id mount_point : Str)
deriving DecidableEq

/-- Success/failure of one remote command on one host: the environment
oracle standing for `run_remote_command` (`true` = no error). -/
def CmdEnv := RemoteCmd → Bool

/-- Trace of issued commands plus the `total_failed` / `total_succeeded`
contributions of a phase fragment. -/
structure PhaseOutcome where
  trace : List RemoteCmd
  failed : Nat
  succeeded : Nat
deriving DecidableEq

/-! ### Remount executor (`do_remount`, lines 455-523) -/

/-- The body of the per-mount remount loop (lines 469-492): `mkdir -p`,
then the DNS-based mount; a `mkdir` failure counts one failure and skips
the mount; a mount failure counts one failure; either way the loop
continues with the next mount. -/
def remountMountOne (ok : CmdEnv) (m : MountRecord) : PhaseOutcome :=
  if ok (RemoteCmd.mkdirp m.mount_point) then
    let cmd := RemoteCmd.mountDns m.volume_id m.mount_point
    if ok cmd then ⟨[RemoteCmd.mkdirp m.mount_point, cmd], 0, 1⟩
    else ⟨[RemoteCmd.mkdirp m.mount_point, cmd], 1, 0⟩
  else ⟨[RemoteCmd.mkdirp m.mount_point], 1, 0⟩

/-- The per-host remount loop over `mounts` (best-effort: every mount is
attempted). -/
def remountLoop (ok : CmdEnv) : List MountRecord → PhaseOutcome
  | [] => ⟨[], 0, 0⟩
  | m :: rest =>
    let one := remountMountOne ok m
    let others := remountLoop ok rest
    ⟨one.trace ++ others.trace, one.failed + others.failed,
      one.succeeded + others.succeeded⟩

/-- One host of the remount execution loop (lines 455-492): the DNS
reachability precheck failing marks all of the host's mounts failed and
attempts nothing. -/
def remountHost (ok : CmdEnv) (dnsReachable : Bool)
    (mounts : List MountRecord) : PhaseOutcome :=
  if dnsReachable then remountLoop ok mounts
  else ⟨[], mounts.length, 0⟩

/-- The remount execution loop over `vms_to_process` (fanout): each host is
processed with its own command environment; trace entries are tagged with
the host IP. -/
def remountFleet (env : Str → CmdEnv) (dns : Str → Bool) :
    List (Str × VMData) → Nat × Nat × List (Str × RemoteCmd)
  | [] => (0, 0, [])
  | (_, vd) :: rest =>
    let one := remountHost (env vd.ip) (dns vd.ip) vd.mounts
    let others := remountFleet env dns rest
    (one.failed + others.1, one.succeeded + others.2.1,
      (one.trace.map fun c => (vd.ip, c)) ++ others.2.2)

/-- The remount planning loop (lines 397-435): skip hosts without a saved
IP or without saved mounts; compute the live inventory (a collection error
coerced to empty, lines 412-414); a host enters `vms_to_process` only with
its non-empty "to restore" list (saved mounts whose mount point is not
live). -/
def remountPlan (query : Str → FindmntResult) : Checkpoint → List (Str × VMData)
  | [] => []
  | (name, vd) :: rest =>
    if vd.ip = [] then remountPlan query rest
    else if vd.mounts = [] then remountPlan query rest
    else
      let pts := (remountLiveMounts (query vd.ip)).map (fun m => m.mount_point)
      let toRestore := vd.mounts.filter fun m => !(decide (m.mount_point ∈ pts))
      if toRestore = [] then remountPlan query rest
      else (name, ⟨vd.ip, toRestore⟩) :: remountPlan query rest

/-- Model of `do_remount` (auto-confirm path): plan, then — only when something is
to restore — execute.  Result: (phase success, total to restore,
succeeded count, tagged command trace).  When the total is zero the phase
returns `True` immediately (lines 441-443) without issuing any command. -/
def do_remount_run (query : Str → FindmntResult) (env : Str → CmdEnv)
    (dns : Str → Bool) (ck : Checkpoint) : Bool × Nat × Nat × List (Str × RemoteCmd) :=
  let plan := remountPlan query ck
  let total := totalMounts plan
  if total = 0 then (true, 0, 0, [])
  else
    let (f, s, tr) := remountFleet env dns plan
    (f = 0, total, s, tr)

/-! ### Rollback executor (`do_rollback`, lines 598-661) -/

/-- Option stripping before an IP-based remount (lines 634-638): when the
recorded options string is non-empty, split it on `","`, drop every token
starting with `"x-systemd."` and every token equal to `"remoteports=dns"`,
and re-join with `","`. -/
def strippedRollbackOptions (options : Str) : Str :=
  if options = [] then options
  else
    joinChar ','
      ((splitOnChar ',' options).filter fun o =>
        !(sysdMarker.isPrefixOf o) && o != dnsMarker)

/-- The mount command issued by the rollback remount step (lines 649-653):
the stripped options when non-empty, otherwise the basic
`mount -t nfs` invocation. -/
def rollbackMountCmd (m : MountRecord) : RemoteCmd :=
  let options := strippedRollbackOptions m.options
  if options = [] then RemoteCmd.mountBasic m.ip_address m.volume_id m.mount_point
  else RemoteCmd.mountOpts options m.ip_address m.volume_id m.mount_point

/-- The fail-fast unmount prelude of rollback (lines 609-622): recorded
mounts currently live are unmounted in recorded order; the first failure
breaks the loop.  Returns the issued commands and whether a failure
occurred (`unmount_failed`). -/
def rollbackUnmounts (ok : CmdEnv) (live : List Str) :
    List MountRecord → List RemoteCmd × Bool
  | [] => ([], false)
  | m :: rest =>
    if m.mount_point ∈ live then
      if ok (RemoteCmd.umount m.mount_point) then
        let (tr, failed) := rollbackUnmounts ok live rest
        (RemoteCmd.umount m.mount_point :: tr, failed)
      else ([RemoteCmd.umount m.mount_point], true)
    else rollbackUnmounts ok live rest

/-- The body of the rollback remount loop (lines 628-661): `mkdir -p`,
then the IP-based mount built by `rollbackMountCmd`. -/
def rollbackMountOne (ok : CmdEnv) (m : MountRecord) : PhaseOutcome :=
  if ok (RemoteCmd.mkdirp m.mount_point) then
    let cmd := rollbackMountCmd m
    if ok cmd then ⟨[RemoteCmd.mkdirp m.mount_point, cmd], 0, 1⟩
    else ⟨[RemoteCmd.mkdirp m.mount_point, cmd], 1, 0⟩
  else ⟨[RemoteCmd.mkdirp m.mount_point], 1, 0⟩

/-- The rollback remount loop over the host's recorded mounts
(best-effort, like the remount phase). -/
def rollbackMountLoop (ok : CmdEnv) : List MountRecord → PhaseOutcome
  | [] => ⟨[], 0, 0⟩
  | m :: rest =>
    let one := rollbackMountOne ok m
    let others := rollbackMountLoop ok rest
    ⟨one.trace ++ others.trace, one.failed + others.failed,
      one.succeeded + others.succeeded⟩

/-- One host of the rollback execution loop (lines 602-661): fail-fast
unmounts first; on an unmount failure the host is abandoned
(`total_failed += len(mounts)`, `continue` — no remount is attempted);
otherwise the best-effort remount loop runs. -/
def rollbackHost (ok : CmdEnv) (live : List Str)
    (mounts : List MountRecord) : PhaseOutcome :=
  let (utr, unmountFailed) := rollbackUnmounts ok live mounts
  if unmountFailed then ⟨utr, mounts.length, 0⟩
  else
    let r := rollbackMountLoop ok mounts
    ⟨utr ++ r.trace, r.failed, r.succeeded⟩

/-! ### Configuration rewriter (`process_fstab_content`, lines 691-737) -/

/-- The canonical option string of a migrated fstab line together with the
literal `nfs` type and `0 0` dump/pass fields (the constant part of the
f-string at lines 730-733). -/
def fstabTail : Str :=
  ("nfs vers=3,nconnect=16,spread_reads,spread_writes,remoteports=dns," ++
   "_netdev,nofail,x-systemd.automount,x-systemd.idle-timeout=30 0 0").data

/-- The replacement line
`f"{CRUSOE_NFS_DOMAIN}:/volumes/{volume_id} {mount_point} nfs <options> 0 0"`. -/
def newFstabLine (volume_id mount_point : Str) : Str :=
  crusoeDomain ++ volSep ++ volume_id ++ ' ' :: mount_point ++ ' ' :: fstabTail

/-- The per-line step of `process_fstab_content`: the emitted line and
whether `nfs_count` was incremented.  Branches in source order: blank or
comment after `strip()`; fewer than 4 whitespace-separated fields;
`parts[2]` not `"nfs"`; source without `":/volumes/"`; source already on
the canonical domain; otherwise rewrite. -/
def processLine (line : Str) : Str × Bool :=
  let stripped := pyStrip line
  if stripped = [] then (line, false)
  else if ['#'].isPrefixOf stripped then (line, false)
  else
    let parts := wsTokens line
    if parts.length < 4 then (line, false)
    else
      let fs_type := if 2 < parts.length then parts.getD 2 [] else []
      if fs_type ≠ nfsLit then (line, false)
      else
        let source := parts.getD 0 []
        let mount_point := parts.getD 1 []
        if !(hasSub volSep source) then (line, false)
        else if crusoeDomain.isPrefixOf source then (line, false)
        else (newFstabLine (splitIdx1 volSep source) mount_point, true)

/-- Model of `process_fstab_content(content)`: split on `"\n"`, process each line
(appending exactly one output line per input line), and count rewrites. -/
def process_fstab_content (content : Str) : List Str × Nat :=
  (splitOnChar '\n' content).foldl
    (fun acc line =>
      let r := processLine line
      (acc.1 ++ [r.1], acc.2 + if r.2 then 1 else 0))
    ([], 0)

/-! ### Claim-side definitions

Definitions that follow the words of the specification, to be compared
against the translations above. -/

/-- Modelled from the spec's failure policy for rollback's unmount step:
issue the given commands in order, stopping right after the first failing
one. -/
def failFastTrace (ok : CmdEnv) : List RemoteCmd → List RemoteCmd
  | [] => []
  | c :: rest => if ok c then c :: failFastTrace ok rest else [c]

/-- Modelled from the spec's wording for rollback option stripping: the
recorded option tokens with any token equal to the DNS-resolution marker
and any token starting with the systemd-automount marker removed, all
others kept verbatim in order. -/
def keptOptionTokens (options : Str) : List Str :=
  (splitOnChar ',' options).filter fun o =>
    !(o == dnsMarker) && !(sysdMarker.isPrefixOf o)

/-- The explicit option token list of an issued mount command: the
comma-split of the `-o` argument for an options-carrying mount, empty for
the invocations without an explicit option list. -/
def cmdOptionTokens : RemoteCmd → List Str
  | RemoteCmd.mountOpts o _ _ _ => splitOnChar ',' o
  | _ => []

/-- The server address an issued mount command points at. -/
def cmdAddress : RemoteCmd → Option Str
  | RemoteCmd.mountOpts _ ip _ _ => some ip
  | RemoteCmd.mountBasic ip _ _ => some ip
  | RemoteCmd.mountDns _ _ => some crusoeDomain
  | _ => none

/-! ## Helper lemmas on the string model -/

theorem rightTrim_cons_not_ws {c : Char} (h : pyWs c = false) (l : Str) :
    rightTrim (c :: l) = c :: rightTrim l := by
  simp [rightTrim, h]

theorem pyStrip_cons_not_ws {c : Char} (h : pyWs c = false) (l : Str) :
    pyStrip (c :: l) = c :: rightTrim l := by
  simp [pyStrip, List.dropWhile_cons, h, rightTrim_cons_not_ws h]

theorem wsTokensAcc_token (t : Str) (hns : ∀ c ∈ t, pyWs c = false) :
    ∀ acc : Str, acc.reverse ++ t ≠ [] →
      ∀ l, wsTokensAcc (t ++ ' ' :: l) acc = (acc.reverse ++ t) :: wsTokens l := by
  induction t with
  | nil =>
    intro acc hne l
    have hacc : acc ≠ [] := by
      intro h; apply hne; simp [h]
    simp only [List.nil_append, wsTokensAcc]
    have : pyWs ' ' = true := by decide
    simp [this, hacc, wsTokens, List.append_nil]
  | cons c t ih =>
    intro acc hne l
    have hc : pyWs c = false := hns c (by simp)
    have ht : ∀ x ∈ t, pyWs x = false := fun x hx => hns x (by simp [hx])
    simp only [List.cons_append, wsTokensAcc, hc, List.append_eq]
    simp only [Bool.false_eq_true, if_false]
    rw [ih ht (c :: acc) (by simp)]
    simp

theorem wsTokens_append_token (t : Str) (hne : t ≠ [])
    (hns : ∀ c ∈ t, pyWs c = false) (l : Str) :
    wsTokens (t ++ ' ' :: l) = t :: wsTokens l := by
  have := wsTokensAcc_token t hns [] (by simpa) l
  simpa [wsTokens] using this

theorem wsTokensAcc_mem (l : Str) :
    ∀ acc : Str, (∀ c ∈ acc, pyWs c = false) →
      ∀ t ∈ wsTokensAcc l acc, t ≠ [] ∧ ∀ c ∈ t, pyWs c = false := by
  induction l with
  | nil =>
    intro acc hacc t ht
    by_cases h : acc = []
    · simp [wsTokensAcc, h] at ht
    · simp [wsTokensAcc, h] at ht
      subst ht
      refine ⟨by simpa, ?_⟩
      intro c hc
      exact hacc c (by simpa using hc)
  | cons c rest ih =>
    intro acc hacc t ht
    by_cases hws : pyWs c
    · by_cases h : acc = []
      · simp [wsTokensAcc, hws, h] at ht
        exact ih [] (by simp) t ht
      · simp [wsTokensAcc, hws, h] at ht
        rcases ht with ht | ht
        · subst ht
          refine ⟨by simpa, ?_⟩
          intro x hx
          exact hacc x (by simpa using hx)
        · exact ih [] (by simp) t ht
    · simp only [wsTokensAcc, hws] at ht
      simp only [Bool.false_eq_true, if_false] at ht
      refine ih (c :: acc) ?_ t ht
      intro x hx
      rcases List.mem_cons.mp hx with hx | hx
      · subst hx; simpa using hws
      · exact hacc x hx

theorem wsTokens_mem {l t : Str} (h : t ∈ wsTokens l) :
    t ≠ [] ∧ ∀ c ∈ t, pyWs c = false :=
  wsTokensAcc_mem l [] (by simp) t h

theorem splitOnChar_ne_nil (sep : Char) (l : Str) : splitOnChar sep l ≠ [] := by
  cases l with
  | nil => simp [splitOnChar]
  | cons c rest =>
    by_cases h : c = sep
    · simp [splitOnChar, h]
    · simp only [splitOnChar, h, if_false]
      cases splitOnChar sep rest <;> simp

theorem splitOnChar_no_sep {sep : Char} {l : Str} (h : sep ∉ l) :
    splitOnChar sep l = [l] := by
  induction l with
  | nil => rfl
  | cons c rest ih =>
    have hc : ¬ c = sep := by
      intro hc; exact h (by simp [hc])
    have hr : sep ∉ rest := fun hm => h (by simp [hm])
    simp [splitOnChar, hc, ih hr]

theorem splitOnChar_append_cons {sep : Char} {x : Str} (h : sep ∉ x) (rest : Str) :
    splitOnChar sep (x ++ sep :: rest) = x :: splitOnChar sep rest := by
  induction x with
  | nil => simp [splitOnChar]
  | cons c x ih =>
    have hc : ¬ c = sep := by
      intro hc; exact h (by simp [hc])
    have hx : sep ∉ x := fun hm => h (by simp [hm])
    simp [splitOnChar, hc, ih hx]

theorem splitOnChar_joinChar {sep : Char} :
    ∀ {ls : List Str}, ls ≠ [] → (∀ p ∈ ls, sep ∉ p) →
      splitOnChar sep (joinChar sep ls) = ls := by
  intro ls
  induction ls with
  | nil => intro h; exact absurd rfl h
  | cons l ls ih =>
    intro _ hmem
    cases ls with
    | nil => simpa [joinChar] using splitOnChar_no_sep (hmem l (by simp))
    | cons l2 ls2 =>
      have hstep : joinChar sep (l :: l2 :: ls2) = l ++ sep :: joinChar sep (l2 :: ls2) := rfl
      rw [hstep, splitOnChar_append_cons (hmem l (by simp))]
      rw [ih (by simp) (fun p hp => hmem p (by simp [hp]))]

theorem mem_splitOnChar_not_mem {sep : Char} :
    ∀ {l : Str} {p : Str}, p ∈ splitOnChar sep l → sep ∉ p := by
  intro l
  induction l with
  | nil =>
    intro p hp
    simp [splitOnChar] at hp
    simp [hp]
  | cons c rest ih =>
    intro p hp
    by_cases hc : c = sep
    · simp only [splitOnChar, hc, if_pos rfl] at hp
      rcases List.mem_cons.mp hp with h | h
      · simp [h]
      · exact ih h
    · simp only [splitOnChar, hc, if_false] at hp
      rcases heq : splitOnChar sep rest with _ | ⟨t, ts⟩
      · exact absurd heq (splitOnChar_ne_nil sep rest)
      · rw [heq] at hp
        rcases List.mem_cons.mp hp with h | h
        · subst h
          intro hm
          rcases List.mem_cons.mp hm with h | h
          · exact hc h.symm
          · exact ih (heq ▸ List.mem_cons_self t ts) h
        · exact ih (heq ▸ List.mem_cons.mpr (Or.inr h))

theorem isPrefixOf_append_self (l x : Str) : l.isPrefixOf (l ++ x) = true := by
  induction l with
  | nil => simp [List.isPrefixOf]
  | cons c l ih => simp [List.isPrefixOf, ih]

theorem hasSub_sandwich (sep x y : Str) : hasSub sep (x ++ (sep ++ y)) = true := by
  induction x with
  | nil =>
    cases sep with
    | nil =>
      cases y with
      | nil => simp [hasSub, List.isEmpty]
      | cons c r => simp [hasSub, List.isPrefixOf]
    | cons s ss =>
      simp only [List.nil_append, List.cons_append, hasSub]
      have : (s :: ss).isPrefixOf (s :: ss ++ y) = true := isPrefixOf_append_self _ _
      simp only [List.cons_append] at this
      simp [this]
  | cons c x ih =>
    simp only [List.cons_append, hasSub]
    simp [ih]

theorem mem_afterFirst {sep : Str} :
    ∀ {l : Str} {c : Char}, c ∈ afterFirst sep l → c ∈ l := by
  intro l
  induction l with
  | nil => intro c h; simp [afterFirst] at h
  | cons a rest ih =>
    intro c h
    by_cases hp : sep.isPrefixOf (a :: rest)
    · simp only [afterFirst, hp, if_pos] at h
      exact List.drop_subset _ _ h
    · simp only [afterFirst, hp, if_false] at h
      exact List.mem_cons.mpr (Or.inr (ih h))

theorem mem_upToSub {sep : Str} :
    ∀ {l : Str} {c : Char}, c ∈ upToSub sep l → c ∈ l := by
  intro l
  induction l with
  | nil => intro c h; simp [upToSub] at h
  | cons a rest ih =>
    intro c h
    by_cases hp : sep.isPrefixOf (a :: rest)
    · simp [upToSub, hp] at h
    · simp only [upToSub, hp, if_false] at h
      rcases List.mem_cons.mp h with h | h
      · simp [h]
      · exact List.mem_cons.mpr (Or.inr (ih h))

theorem mem_splitIdx1 {sep s : Str} {c : Char} (h : c ∈ splitIdx1 sep s) : c ∈ s :=
  mem_afterFirst (mem_upToSub h)

theorem getD_mem {α : Type} (l : List α) (n : Nat) (d : α) (h : n < l.length) :
    l.getD n d ∈ l := by
  induction l generalizing n with
  | nil => simp at h
  | cons a rest ih =>
    cases n with
    | zero => simp [List.getD]
    | succ k =>
      have : k < rest.length := by simpa using h
      simpa [List.getD] using Or.inr (by simpa [List.getD] using ih k this)

/-! ## The configuration rewriter, line by line -/

/-- The canonical option string alone (the middle token of `fstabTail`). -/
def fstabOptions : Str :=
  ("vers=3,nconnect=16,spread_reads,spread_writes,remoteports=dns," ++
   "_netdev,nofail,x-systemd.automount,x-systemd.idle-timeout=30").data

theorem wsTokens_fstabTail : wsTokens fstabTail = [nfsLit, fstabOptions, ['0'], ['0']] := by
  decide

theorem crusoeDomain_cons : crusoeDomain = 'n' :: "fs.crusoecloudcompute.com".data := rfl

theorem newFstabLine_cons (vid mp : Str) :
    newFstabLine vid mp =
      'n' :: ("fs.crusoecloudcompute.com".data ++ (volSep ++ (vid ++ ' ' :: (mp ++ ' ' :: fstabTail)))) := by
  simp only [newFstabLine, crusoeDomain_cons, List.cons_append, List.append_assoc]

/-- The whitespace tokens of a rewritten line: the canonical source, the
original mount point, the `nfs` literal, the canonical option string and the
two `0` fields. -/
theorem wsTokens_newFstabLine (vid mp : Str) (hvid : ∀ c ∈ vid, pyWs c = false)
    (hmp : mp ≠ []) (hmpns : ∀ c ∈ mp, pyWs c = false) :
    wsTokens (newFstabLine vid mp) =
      [crusoeDomain ++ volSep ++ vid, mp, nfsLit, fstabOptions, ['0'], ['0']] := by
  have hsrc_eq : newFstabLine vid mp =
      (crusoeDomain ++ volSep ++ vid) ++ ' ' :: (mp ++ ' ' :: fstabTail) := by
    simp [newFstabLine, List.append_assoc]
  have hsrc_ne : crusoeDomain ++ volSep ++ vid ≠ [] := by
    rw [show crusoeDomain ++ volSep ++ vid = 'n' :: ("fs.crusoecloudcompute.com".data ++ volSep ++ vid) by
      simp only [crusoeDomain_cons, List.cons_append]]
    exact List.cons_ne_nil _ _
  have hsrc_ns : ∀ c ∈ crusoeDomain ++ volSep ++ vid, pyWs c = false := by
    intro c hc
    rcases List.mem_append.mp hc with hc | hc
    · rcases List.mem_append.mp hc with hc | hc
      · exact (by decide : ∀ c ∈ crusoeDomain, pyWs c = false) c hc
      · exact (by decide : ∀ c ∈ volSep, pyWs c = false) c hc
    · exact hvid c hc
  rw [hsrc_eq, wsTokens_append_token _ hsrc_ne hsrc_ns,
      wsTokens_append_token mp hmp hmpns, wsTokens_fstabTail]

/-- A rewritten line passes through the rewriter unchanged: its source
already starts with the canonical domain. -/
theorem processLine_newFstabLine (vid mp : Str) (hvid : ∀ c ∈ vid, pyWs c = false)
    (hmp : mp ≠ []) (hmpns : ∀ c ∈ mp, pyWs c = false) :
    processLine (newFstabLine vid mp) = (newFstabLine vid mp, false) := by
  have htok := wsTokens_newFstabLine vid mp hvid hmp hmpns
  have hstrip : pyStrip (newFstabLine vid mp) =
      'n' :: rightTrim ("fs.crusoecloudcompute.com".data ++ (volSep ++ (vid ++ ' ' :: (mp ++ ' ' :: fstabTail)))) := by
    rw [newFstabLine_cons]
    exact pyStrip_cons_not_ws (by decide) _
  have hsub : hasSub volSep (crusoeDomain ++ volSep ++ vid) = true := by
    rw [List.append_assoc]; exact hasSub_sandwich _ _ _
  have hpre : crusoeDomain.isPrefixOf (crusoeDomain ++ volSep ++ vid) = true := by
    rw [List.append_assoc]; exact isPrefixOf_append_self _ _
  have hhash : ∀ R : Str, (['#'] : Str).isPrefixOf ('n' :: R) = false := by
    intro R
    simp [List.isPrefixOf, show (('#' == 'n') : Bool) = false from rfl]
  simp [processLine, hstrip, hhash, htok, hsub, hpre,
        List.getD_cons_succ, List.getD_cons_zero, nfsLit]

/-- Branch dichotomy for the rewriter: a line either passes through
unchanged, or is a legacy managed line replaced by a canonical line that
differs from it. -/
theorem processLine_cases (line : Str) :
    processLine line = (line, false) ∨
    ∃ vid mp, (∀ c ∈ vid, pyWs c = false) ∧ mp ≠ [] ∧ (∀ c ∈ mp, pyWs c = false) ∧
      processLine line = (newFstabLine vid mp, true) ∧ newFstabLine vid mp ≠ line := by
  by_cases h1 : pyStrip line = []
  · exact Or.inl (by simp only [processLine]; rw [if_pos h1])
  by_cases h2 : (['#'] : Str).isPrefixOf (pyStrip line) = true
  · exact Or.inl (by simp only [processLine]; rw [if_neg h1, if_pos h2])
  by_cases h3 : (wsTokens line).length < 4
  · exact Or.inl (by simp only [processLine]; rw [if_neg h1, if_neg h2, if_pos h3])
  have h2' : 2 < (wsTokens line).length := by omega
  by_cases h4 : (wsTokens line).getD 2 [] = nfsLit
  case neg =>
    exact Or.inl (by
      simp only [processLine]
      rw [if_neg h1, if_neg h2, if_neg h3, if_pos h2', if_pos h4])
  by_cases h5 : hasSub volSep ((wsTokens line).getD 0 []) = true
  case neg =>
    have hf : hasSub volSep ((wsTokens line).getD 0 []) = false := by
      cases hh : hasSub volSep ((wsTokens line).getD 0 []) with
      | true => exact absurd hh h5
      | false => rfl
    have hb5 : (!hasSub volSep ((wsTokens line).getD 0 [])) = true := by rw [hf]; rfl
    exact Or.inl (by
      simp only [processLine]
      rw [if_neg h1, if_neg h2, if_neg h3, if_pos h2', if_neg (not_not.mpr h4), if_pos hb5])
  have hb5 : ¬ ((!hasSub volSep ((wsTokens line).getD 0 [])) = true) := by rw [h5]; simp
  by_cases h6 : crusoeDomain.isPrefixOf ((wsTokens line).getD 0 []) = true
  · exact Or.inl (by
      simp only [processLine]
      rw [if_neg h1, if_neg h2, if_neg h3, if_pos h2', if_neg (not_not.mpr h4), if_neg hb5,
          if_pos h6])
  · right
    have hsrc_mem : (wsTokens line).getD 0 [] ∈ wsTokens line := getD_mem _ 0 _ (by omega)
    obtain ⟨hsne, hsns⟩ := wsTokens_mem hsrc_mem
    have hmp_mem : (wsTokens line).getD 1 [] ∈ wsTokens line := getD_mem _ 1 _ (by omega)
    obtain ⟨hmpne, hmpns⟩ := wsTokens_mem hmp_mem
    have hvid : ∀ c ∈ splitIdx1 volSep ((wsTokens line).getD 0 []), pyWs c = false :=
      fun c hc => hsns c (mem_splitIdx1 hc)
    refine ⟨splitIdx1 volSep ((wsTokens line).getD 0 []), (wsTokens line).getD 1 [],
      hvid, hmpne, hmpns, ?_, ?_⟩
    · simp only [processLine]
      rw [if_neg h1, if_neg h2, if_neg h3, if_pos h2', if_neg (not_not.mpr h4), if_neg hb5,
          if_neg h6]
    · intro heq
      have htok := wsTokens_newFstabLine _ _ hvid hmpne hmpns
      rw [heq] at htok
      have hsrc := congrArg (fun l => List.getD l 0 ([] : Str)) htok
      simp only [List.getD_cons_zero] at hsrc
      apply h6
      rw [hsrc, List.append_assoc]
      exact isPrefixOf_append_self _ _

/-- An unchanged flag means the line really was passed through verbatim. -/
theorem processLine_unchanged {line : Str} (h : (processLine line).2 = false) :
    (processLine line).1 = line := by
  rcases processLine_cases line with hc | ⟨vid, mp, _, _, _, hc, _⟩
  · rw [hc]
  · rw [hc] at h; exact absurd h (by simp)

/-- A changed flag means the emitted line differs from the input line. -/
theorem processLine_changed_ne {line : Str} (h : (processLine line).2 = true) :
    (processLine line).1 ≠ line := by
  rcases processLine_cases line with hc | ⟨vid, mp, _, _, _, hc, hne⟩
  · rw [hc] at h; exact absurd h (by simp)
  · rw [hc]; exact hne

theorem processLine_changed_decide (line : Str) :
    (processLine line).2 = decide ((processLine line).1 ≠ line) := by
  rcases hc : (processLine line).2 with _ | _
  · simp [processLine_unchanged hc]
  · simp [processLine_changed_ne hc]

/-- Applying the rewriter to its own output changes nothing. -/
theorem processLine_stable (line : Str) :
    processLine ((processLine line).1) = ((processLine line).1, false) := by
  rcases processLine_cases line with hc | ⟨vid, mp, hvid, hmp, hmpns, hc, _⟩
  · rw [hc]; exact hc
  · rw [hc]
    exact processLine_newFstabLine vid mp hvid hmp hmpns

/-- A rewritten line contains no newline character (its variable parts come
from whitespace-free tokens). -/
theorem newFstabLine_no_nl (vid mp : Str) (hvid : ∀ c ∈ vid, pyWs c = false)
    (hmpns : ∀ c ∈ mp, pyWs c = false) : '\n' ∉ newFstabLine vid mp := by
  have d1 : '\n' ∉ crusoeDomain := by decide
  have d2 : '\n' ∉ volSep := by decide
  have d3 : '\n' ∉ fstabTail := by decide
  have d4 : ¬ ('\n' = ' ') := by decide
  have hv : '\n' ∉ vid := fun hmem => absurd (hvid _ hmem) (by decide)
  have hmp : '\n' ∉ mp := fun hmem => absurd (hmpns _ hmem) (by decide)
  intro h
  simp only [newFstabLine, List.mem_append, List.mem_cons] at h
  tauto

theorem processLine_no_nl {line : Str} (h : '\n' ∉ line) :
    '\n' ∉ (processLine line).1 := by
  rcases processLine_cases line with hc | ⟨vid, mp, hvid, _, hmpns, hc, _⟩
  · rw [hc]; exact h
  · rw [hc]; exact newFstabLine_no_nl vid mp hvid hmpns

/-- The rewriting loop of `process_fstab_content`, characterized: one
output line per input line, and the count of rewritten lines. -/
theorem process_fstab_foldl (ls : List Str) : ∀ acc : List Str × Nat,
    ls.foldl
      (fun acc line =>
        let r := processLine line
        (acc.1 ++ [r.1], acc.2 + if r.2 then 1 else 0)) acc
      = (acc.1 ++ ls.map (fun l => (processLine l).1),
         acc.2 + (ls.filter (fun l => (processLine l).2)).length) := by
  induction ls with
  | nil => intro acc; simp
  | cons l ls ih =>
    intro acc
    rw [List.foldl_cons, ih]
    rcases hc : (processLine l).2 with _ | _ <;>
      simp [List.filter_cons, hc, List.append_assoc, Nat.add_assoc, Nat.add_comm 1]

theorem process_fstab_content_eq (content : Str) :
    process_fstab_content content =
      ((splitOnChar '\n' content).map (fun l => (processLine l).1),
       ((splitOnChar '\n' content).filter (fun l => (processLine l).2)).length) := by
  rw [process_fstab_content, process_fstab_foldl]
  simp

theorem map_id_of_mem {α : Type} {l : List α} {f : α → α} (h : ∀ a ∈ l, f a = a) :
    l.map f = l := by
  induction l with
  | nil => rfl
  | cons a t ih => simp [h a (by simp), ih (fun x hx => h x (by simp [hx]))]

/-! ## Claim theorems -/

/-- C2: the configuration rewriter is idempotent — re-applying
`process_fstab_content` to the newline-join of its own output returns the
same line sequence with a changed count of zero (a no-op second pass). -/
theorem C2_rewrite_idempotent (content : Str) :
    process_fstab_content (joinChar '\n' (process_fstab_content content).1) =
      ((process_fstab_content content).1, 0) := by
  rw [process_fstab_content_eq content]
  have hne : (splitOnChar '\n' content).map (fun l => (processLine l).1) ≠ [] := by
    intro h
    exact splitOnChar_ne_nil '\n' content (List.map_eq_nil_iff.mp h)
  have hnonl : ∀ p ∈ (splitOnChar '\n' content).map (fun l => (processLine l).1),
      '\n' ∉ p := by
    intro p hp
    rcases List.mem_map.mp hp with ⟨l, hl, rfl⟩
    exact processLine_no_nl (mem_splitOnChar_not_mem hl)
  rw [process_fstab_content_eq, splitOnChar_joinChar hne hnonl]
  have hfst : ∀ p ∈ (splitOnChar '\n' content).map (fun l => (processLine l).1),
      (processLine p).1 = p := by
    intro p hp
    rcases List.mem_map.mp hp with ⟨l, _, rfl⟩
    rw [processLine_stable l]
  have hsnd : ∀ p ∈ (splitOnChar '\n' content).map (fun l => (processLine l).1),
      ¬ ((processLine p).2 = true) := by
    intro p hp
    rcases List.mem_map.mp hp with ⟨l, _, rfl⟩
    rw [processLine_stable l]
    simp
  rw [map_id_of_mem hfst, List.filter_eq_nil_iff.mpr hsnd]
  rfl

/-- C10: the rewriter emits exactly one output line per input line — the
output is the per-line image of the newline-split input (same length,
unmodified lines at the same positions) — and the changed count equals the
number of positions whose output line differs from the input line. -/
theorem C10_rewriter_line_structure (content : Str) :
    (process_fstab_content content).1 =
      (splitOnChar '\n' content).map (fun l => (processLine l).1) ∧
    (process_fstab_content content).1.length = (splitOnChar '\n' content).length ∧
    (process_fstab_content content).2 =
      ((splitOnChar '\n' content).filter
        (fun l => decide ((processLine l).1 ≠ l))).length := by
  refine ⟨by rw [process_fstab_content_eq], ?_, ?_⟩
  · rw [process_fstab_content_eq]
    exact List.length_map _ _
  · rw [process_fstab_content_eq]
    have : ∀ l ∈ splitOnChar '\n' content,
        (processLine l).2 = decide ((processLine l).1 ≠ l) :=
      fun l _ => processLine_changed_decide l
    rw [List.filter_congr this]

/-- Exact characterization of when the rewriter changes a line. -/
theorem processLine_branch_spec (line : Str) :
    (processLine line).2 = true ↔
      (pyStrip line ≠ [] ∧ (['#'] : Str).isPrefixOf (pyStrip line) = false ∧
       ¬ (wsTokens line).length < 4 ∧ (wsTokens line).getD 2 [] = nfsLit ∧
       hasSub volSep ((wsTokens line).getD 0 []) = true ∧
       crusoeDomain.isPrefixOf ((wsTokens line).getD 0 []) = false) := by
  by_cases h1 : pyStrip line = []
  · have he : processLine line = (line, false) := by
      simp only [processLine]; rw [if_pos h1]
    exact iff_of_false (by simp [he]) (fun h => h.1 h1)
  by_cases h2 : (['#'] : Str).isPrefixOf (pyStrip line) = true
  · have he : processLine line = (line, false) := by
      simp only [processLine]; rw [if_neg h1, if_pos h2]
    refine iff_of_false (by simp [he]) (fun h => ?_)
    rw [h.2.1] at h2
    simp at h2
  by_cases h3 : (wsTokens line).length < 4
  · have he : processLine line = (line, false) := by
      simp only [processLine]; rw [if_neg h1, if_neg h2, if_pos h3]
    exact iff_of_false (by simp [he]) (fun h => h.2.2.1 h3)
  have h2' : 2 < (wsTokens line).length := by omega
  by_cases h4 : (wsTokens line).getD 2 [] = nfsLit
  case neg =>
    have he : processLine line = (line, false) := by
      simp only [processLine]
      rw [if_neg h1, if_neg h2, if_neg h3, if_pos h2', if_pos h4]
    exact iff_of_false (by simp [he]) (fun h => h4 h.2.2.2.1)
  by_cases h5 : hasSub volSep ((wsTokens line).getD 0 []) = true
  case neg =>
    have hf : hasSub volSep ((wsTokens line).getD 0 []) = false :=
      Bool.eq_false_iff.mpr h5
    have hb5 : (!hasSub volSep ((wsTokens line).getD 0 [])) = true := by rw [hf]; rfl
    have he : processLine line = (line, false) := by
      simp only [processLine]
      rw [if_neg h1, if_neg h2, if_neg h3, if_pos h2', if_neg (not_not.mpr h4), if_pos hb5]
    exact iff_of_false (by simp [he]) (fun h => h5 h.2.2.2.2.1)
  have hb5 : ¬ ((!hasSub volSep ((wsTokens line).getD 0 [])) = true) := by rw [h5]; simp
  by_cases h6 : crusoeDomain.isPrefixOf ((wsTokens line).getD 0 []) = true
  · have he : processLine line = (line, false) := by
      simp only [processLine]
      rw [if_neg h1, if_neg h2, if_neg h3, if_pos h2', if_neg (not_not.mpr h4), if_neg hb5,
          if_pos h6]
    refine iff_of_false (by simp [he]) (fun h => ?_)
    rw [h.2.2.2.2.2] at h6
    simp at h6
  · have he : processLine line =
        (newFstabLine (splitIdx1 volSep ((wsTokens line).getD 0 []))
          ((wsTokens line).getD 1 []), true) := by
      simp only [processLine]
      rw [if_neg h1, if_neg h2, if_neg h3, if_pos h2', if_neg (not_not.mpr h4), if_neg hb5,
          if_neg h6]
    exact iff_of_true (by rw [he]) ⟨h1, Bool.eq_false_iff.mpr h2, h3, h4, h5,
      Bool.eq_false_iff.mpr h6⟩

/-- C6 counterexample: a managed legacy line with only four
whitespace-separated fields (fewer than six) is NOT kept byte-identical —
the rewriter changes it. -/
theorem C6_counterexample :
    (wsTokens "1.2.3.4:/volumes/v /data nfs vers=3".data).length < 6 ∧
    (processLine "1.2.3.4:/volumes/v /data nfs vers=3".data).2 = true ∧
    (processLine "1.2.3.4:/volumes/v /data nfs vers=3".data).1 ≠
      "1.2.3.4:/volumes/v /data nfs vers=3".data := by
  decide

/-- C6 (amended): a line is kept byte-identical when it is blank, a
comment, has fewer than FOUR whitespace-separated fields, or its third
field is not `nfs`; and any changed line is a legacy managed line (at
least four fields, type `nfs`, a volume-namespace source not already on
the canonical domain). -/
theorem C6_passthrough_amended (line : Str) :
    (pyStrip line = [] ∨ (['#'] : Str).isPrefixOf (pyStrip line) = true ∨
        (wsTokens line).length < 4 ∨ (wsTokens line).getD 2 [] ≠ nfsLit →
      processLine line = (line, false)) ∧
    ((processLine line).1 ≠ line →
      4 ≤ (wsTokens line).length ∧ (wsTokens line).getD 2 [] = nfsLit ∧
      hasSub volSep ((wsTokens line).getD 0 []) = true ∧
      crusoeDomain.isPrefixOf ((wsTokens line).getD 0 []) = false) := by
  constructor
  · intro hd
    cases hc : (processLine line).2 with
    | false =>
      have h1 := processLine_unchanged hc
      rw [show processLine line = ((processLine line).1, (processLine line).2) from rfl,
          h1, hc]
    | true =>
      exfalso
      obtain ⟨s1, s2, s3, s4, _, _⟩ := (processLine_branch_spec line).mp hc
      rcases hd with hd | hd | hd | hd
      · exact s1 hd
      · rw [s2] at hd; simp at hd
      · exact s3 hd
      · exact hd s4
  · intro hne
    cases hc : (processLine line).2 with
    | false => exact absurd (processLine_unchanged hc) hne
    | true =>
      obtain ⟨_, _, s3, s4, s5, s6⟩ := (processLine_branch_spec line).mp hc
      exact ⟨by omega, s4, s5, s6⟩

/-- Witness for C6 (amended): a comment line passes through unchanged, and
a concrete changed line satisfies the legacy-managed-line description. -/
theorem C6_passthrough_amended_witness :
    processLine "# fstab header".data = ("# fstab header".data, false) ∧
    (4 ≤ (wsTokens "1.2.3.4:/volumes/v /data nfs vers=3 0 0".data).length ∧
     (wsTokens "1.2.3.4:/volumes/v /data nfs vers=3 0 0".data).getD 2 [] = nfsLit ∧
     hasSub volSep ((wsTokens "1.2.3.4:/volumes/v /data nfs vers=3 0 0".data).getD 0 []) = true ∧
     crusoeDomain.isPrefixOf
       ((wsTokens "1.2.3.4:/volumes/v /data nfs vers=3 0 0".data).getD 0 []) = false) :=
  ⟨(C6_passthrough_amended _).1 (Or.inr (Or.inl (by decide))),
   (C6_passthrough_amended _).2 (by decide)⟩

theorem joinChar_nil (sep : Char) : joinChar sep [] = [] := rfl

/-- C5 counterexample: for the recorded options string ",remoteports=dns"
(non-empty), the kept token list is the single empty token, but the issued
command is the minimal `mount -t nfs` invocation whose explicit option
token list is empty — the lone kept (empty) token is not preserved. -/
theorem C5_counterexample :
    (",remoteports=dns".data : Str) ≠ [] ∧
    keptOptionTokens ",remoteports=dns".data = [[]] ∧
    rollbackMountCmd ⟨"/data".data, "v".data, "10.0.0.5".data, ",remoteports=dns".data⟩ =
      RemoteCmd.mountBasic "10.0.0.5".data "v".data "/data".data ∧
    cmdOptionTokens
        (rollbackMountCmd ⟨"/data".data, "v".data, "10.0.0.5".data, ",remoteports=dns".data⟩) ≠
      keptOptionTokens ",remoteports=dns".data := by
  decide

/-- C5 (amended): rollback strips exactly the DNS-resolution marker token
and the systemd-automount-prefixed tokens, preserving all other tokens
verbatim in order, and remounts with the originally recorded address; an
empty recorded options string yields the minimal default invocation — and
so does a non-empty one whose kept tokens comma-join to the empty string. -/
theorem C5_rollback_options_amended (m : MountRecord) :
    (m.options = [] →
      rollbackMountCmd m = RemoteCmd.mountBasic m.ip_address m.volume_id m.mount_point) ∧
    (m.options ≠ [] →
      cmdAddress (rollbackMountCmd m) = some m.ip_address ∧
      keptOptionTokens m.options =
        (splitOnChar ',' m.options).filter
          (fun o => !(sysdMarker.isPrefixOf o) && o != dnsMarker) ∧
      (joinChar ',' (keptOptionTokens m.options) ≠ [] →
        cmdOptionTokens (rollbackMountCmd m) = keptOptionTokens m.options) ∧
      (joinChar ',' (keptOptionTokens m.options) = [] →
        rollbackMountCmd m =
          RemoteCmd.mountBasic m.ip_address m.volume_id m.mount_point)) := by
  have hfe : (splitOnChar ',' m.options).filter
        (fun o => !(sysdMarker.isPrefixOf o) && o != dnsMarker) =
      keptOptionTokens m.options := by
    refine List.filter_congr (fun t _ => ?_)
    show (!(sysdMarker.isPrefixOf t) && !(t == dnsMarker)) =
      (!(t == dnsMarker) && !(sysdMarker.isPrefixOf t))
    exact Bool.and_comm _ _
  constructor
  · intro h
    simp [rollbackMountCmd, strippedRollbackOptions, h]
  · intro hne
    have hstr : strippedRollbackOptions m.options =
        joinChar ',' (keptOptionTokens m.options) := by
      rw [strippedRollbackOptions, if_neg hne, hfe]
    refine ⟨?_, hfe.symm, ?_, ?_⟩
    · by_cases hj : joinChar ',' (keptOptionTokens m.options) = []
      · simp [rollbackMountCmd, hstr, hj, cmdAddress]
      · simp [rollbackMountCmd, hstr, hj, cmdAddress]
    · intro hjne
      have hkne : keptOptionTokens m.options ≠ [] := by
        intro h0
        rw [h0, joinChar_nil] at hjne
        exact hjne rfl
      have hnc : ∀ p ∈ keptOptionTokens m.options, ',' ∉ p := fun p hp =>
        mem_splitOnChar_not_mem (List.mem_of_mem_filter hp)
      have hcmd : rollbackMountCmd m =
          RemoteCmd.mountOpts (joinChar ',' (keptOptionTokens m.options))
            m.ip_address m.volume_id m.mount_point := by
        rw [rollbackMountCmd]
        simp only [hstr]
        rw [if_neg hjne]
      rw [hcmd]
      show splitOnChar ',' (joinChar ',' (keptOptionTokens m.options)) =
        keptOptionTokens m.options
      exact splitOnChar_joinChar hkne hnc
    · intro hj0
      rw [rollbackMountCmd]
      simp only [hstr]
      rw [if_pos hj0]

/-- Witness for C5 (amended) at a concrete record with mixed options. -/
theorem C5_rollback_options_amended_witness :
    cmdOptionTokens
        (rollbackMountCmd ⟨"/data".data, "v".data, "10.0.0.5".data,
          "vers=3,x-systemd.automount,remoteports=dns,nconnect=16".data⟩) =
      keptOptionTokens "vers=3,x-systemd.automount,remoteports=dns,nconnect=16".data :=
  ((C5_rollback_options_amended _).2 (by decide)).2.2.1 (by decide)

theorem decodeMount_encodeMount (m : MountRecord) :
    decodeMount (encodeMount m) = some m := by
  simp [decodeMount, encodeMount, jLookup]

theorem optMapM_decodeMount_encodeMount (ms : List MountRecord) :
    optMapM decodeMount (ms.map encodeMount) = some ms := by
  induction ms with
  | nil => rfl
  | cons m rest ih => simp [optMapM, decodeMount_encodeMount, ih]

theorem decodeVMData_encodeVMData (d : VMData) :
    decodeVMData (encodeVMData d) = some d := by
  simp [decodeVMData, encodeVMData, jLookup, optMapM_decodeMount_encodeMount]

/-- C9: checkpoint round-trip — for every non-empty checkpoint mapping,
loading right after saving returns the same mapping. -/
theorem C9_checkpoint_roundtrip (ck : Checkpoint) (hne : ck ≠ []) :
    load_vm_mounts (some (save_vm_mounts ck)) = some ck := by
  show decodeCheckpoint (save_vm_mounts ck) = some ck
  induction ck with
  | nil => rfl
  | cons p rest ih =>
    simp only [save_vm_mounts, decodeCheckpoint, List.map_cons, optMapM,
      decodeVMData_encodeVMData]
    cases hr : rest with
    | nil => rfl
    | cons q rest2 =>
      have ihr := ih (by simp [hr])
      simp only [save_vm_mounts, decodeCheckpoint] at ihr
      rw [← hr, ihr]

/-- Witness for C9 at a one-host checkpoint with one recorded mount. -/
theorem C9_checkpoint_roundtrip_witness :
    load_vm_mounts (some (save_vm_mounts
      [("vm1".data, ⟨"1.2.3.4".data,
        [⟨"/data".data, "v".data, "10.0.0.5".data, "vers=3".data⟩]⟩)])) =
    some [("vm1".data, ⟨"1.2.3.4".data,
        [⟨"/data".data, "v".data, "10.0.0.5".data, "vers=3".data⟩]⟩)] :=
  C9_checkpoint_roundtrip _ (List.cons_ne_nil _ _)

/-- C1: when every host of the capture run collects an empty mount set and
a non-empty checkpoint file already exists, the save step leaves the file
content unchanged (the write is skipped, not replaced). -/
theorem C1_capture_skip (query : Str → FindmntResult) (vms : List VMEntry) (j : Json)
    (hempty : ∀ vm ∈ vms, ∀ ms, get_remote_mounts (query vm.public_ip) = some ms → ms = [])
    (_hne : j ≠ Json.obj []) :
    captureSaveFile (unmountCollect query vms) (some j) = some j := by
  have htot : totalMounts (unmountCollect query vms) = 0 := by
    induction vms with
    | nil => rfl
    | cons vm rest ih =>
      have hrest := ih (fun v hv => hempty v (by simp [hv]))
      cases hq : get_remote_mounts (query vm.public_ip) with
      | none => simpa [unmountCollect, hq] using hrest
      | some ms =>
        have hms : ms = [] := hempty vm (by simp) ms hq
        simp [unmountCollect, hq, hms, totalMounts] at hrest ⊢
        simpa [totalMounts] using hrest
  simp [captureSaveFile, htot]

/-- Witness for C1: one host answering an empty `findmnt` output, with a
prior non-empty checkpoint on file. -/
theorem C1_capture_skip_witness :
    captureSaveFile
      (unmountCollect (fun _ => FindmntResult.success [] none)
        [⟨"vm1".data, "1.2.3.4".data⟩])
      (some (save_vm_mounts
        [("vm0".data, ⟨"10.0.0.9".data,
          [⟨"/data".data, "v".data, "10.0.0.5".data, "vers=3".data⟩]⟩)])) =
    some (save_vm_mounts
      [("vm0".data, ⟨"10.0.0.9".data,
        [⟨"/data".data, "v".data, "10.0.0.5".data, "vers=3".data⟩]⟩)]) :=
  C1_capture_skip _ _ _
    (fun _ _ ms h => (Option.some.inj h).symm)
    (by simp [save_vm_mounts])

/-- C3 counterexample: the collector does return `none` for an error and
`some []` for zero mounts, but the remount phase's live-inventory check
maps both to the same empty inventory — that caller does NOT treat a
collection error differently from zero mounts. -/
theorem C3_counterexample :
    get_remote_mounts
        (FindmntResult.failure "Command failed (exit 255): connection refused".data) = none ∧
    get_remote_mounts (FindmntResult.success [] none) = some [] ∧
    remountLiveMounts
        (FindmntResult.failure "Command failed (exit 255): connection refused".data) =
      remountLiveMounts (FindmntResult.success [] none) := by
  decide

/-- C3 (amended): the collector returns an explicit empty sequence or a
collection error, and the two are distinct values; the unmount collection
phase treats the error differently (the host is skipped while an
empty-mount host is recorded), but the remount phase's live-inventory
check coerces a collection error into zero live mounts. -/
theorem C3_collector_error_handling_amended
    (msg : Str) (p : Option Json) (query : Str → FindmntResult) (vm : VMEntry)
    (ms : List MountRecord) (r : FindmntResult) :
    (hasSub noMountsMarker (toLowerStr msg) = false →
      get_remote_mounts (FindmntResult.failure msg) = none) ∧
    get_remote_mounts (FindmntResult.success [] p) = some [] ∧
    (none : Option (List MountRecord)) ≠ some [] ∧
    (get_remote_mounts (query vm.public_ip) = none → unmountCollect query [vm] = []) ∧
    (get_remote_mounts (query vm.public_ip) = some ms →
      unmountCollect query [vm] = [(vm.name, ⟨vm.public_ip, ms⟩)]) ∧
    (get_remote_mounts r = none → remountLiveMounts r = []) := by
  refine ⟨fun h => ?_, rfl, by simp, fun h => ?_, fun h => ?_, fun h => ?_⟩
  · simp [get_remote_mounts, h]
  · simp [unmountCollect, h]
  · simp [unmountCollect, h]
  · simp [remountLiveMounts, h]

/-- Witness for C3 (amended) on a concrete SSH failure message. -/
theorem C3_collector_error_handling_amended_witness :
    get_remote_mounts (FindmntResult.failure "ssh: connect timed out".data) = none ∧
    remountLiveMounts (FindmntResult.failure "ssh: connect timed out".data) = [] := by
  refine ⟨?_, ?_⟩
  · exact (C3_collector_error_handling_amended "ssh: connect timed out".data none
      (fun _ => FindmntResult.success [] none) ⟨"vm1".data, "1.2.3.4".data⟩ []
      (FindmntResult.failure "ssh: connect timed out".data)).1 (by decide)
  · exact (C3_collector_error_handling_amended "ssh: connect timed out".data none
      (fun _ => FindmntResult.success [] none) ⟨"vm1".data, "1.2.3.4".data⟩ []
      (FindmntResult.failure "ssh: connect timed out".data)).2.2.2.2.2 (by decide)

theorem mem_failFastTrace {ok : CmdEnv} :
    ∀ {l : List RemoteCmd} {c : RemoteCmd}, c ∈ failFastTrace ok l → c ∈ l := by
  intro l
  induction l with
  | nil => intro c h; simp [failFastTrace] at h
  | cons a rest ih =>
    intro c h
    by_cases ha : ok a = true
    · simp only [failFastTrace, ha, if_pos] at h
      rcases List.mem_cons.mp h with h | h
      · simp [h]
      · exact List.mem_cons.mpr (Or.inr (ih h))
    · simp only [failFastTrace, ha, if_neg] at h
      simp at h
      simp [h]

/-- C4: rollback's unmount prelude issues the live recorded mounts' unmount
commands in recorded order, stopping at the first failure; on such a
failure the host is abandoned with no remount command issued.  The remount
loop, by contrast, attempts every mount regardless of earlier failures. -/
theorem C4_failure_policies (ok : CmdEnv) (live : List Str) (mounts : List MountRecord) :
    (rollbackUnmounts ok live mounts).1 =
      failFastTrace ok
        ((mounts.filter (fun m => decide (m.mount_point ∈ live))).map
          (fun m => RemoteCmd.umount m.mount_point)) ∧
    ((rollbackUnmounts ok live mounts).2 = true →
      rollbackHost ok live mounts =
        ⟨(rollbackUnmounts ok live mounts).1, mounts.length, 0⟩ ∧
      ∀ c ∈ (rollbackHost ok live mounts).trace, ∃ mp, c = RemoteCmd.umount mp) ∧
    (remountLoop ok mounts).trace =
      (mounts.map (fun m => (remountMountOne ok m).trace)).flatten ∧
    (remountLoop ok mounts).failed =
      (mounts.map (fun m => (remountMountOne ok m).failed)).sum ∧
    (remountLoop ok mounts).succeeded =
      (mounts.map (fun m => (remountMountOne ok m).succeeded)).sum := by
  have ha : (rollbackUnmounts ok live mounts).1 =
      failFastTrace ok
        ((mounts.filter (fun m => decide (m.mount_point ∈ live))).map
          (fun m => RemoteCmd.umount m.mount_point)) := by
    induction mounts with
    | nil => rfl
    | cons m rest ih =>
      by_cases hm : m.mount_point ∈ live
      · by_cases hok : ok (RemoteCmd.umount m.mount_point) = true
        · simp [rollbackUnmounts, hm, hok, List.filter_cons, failFastTrace, ih]
        · simp [rollbackUnmounts, hm, hok, List.filter_cons, failFastTrace,
            Bool.eq_false_iff.mpr hok]
      · simp [rollbackUnmounts, hm, List.filter_cons, ih]
  refine ⟨ha, fun hf => ?_, ?_, ?_, ?_⟩
  · have hpair : rollbackUnmounts ok live mounts =
        ((rollbackUnmounts ok live mounts).1, true) := by
      rw [← hf]
    have hh : rollbackHost ok live mounts =
        ⟨(rollbackUnmounts ok live mounts).1, mounts.length, 0⟩ := by
      rw [rollbackHost, hpair]
      simp
    refine ⟨hh, fun c hc => ?_⟩
    rw [hh] at hc
    have hc2 := ha ▸ hc
    rcases List.mem_map.mp (mem_failFastTrace hc2) with ⟨m, _, rfl⟩
    exact ⟨m.mount_point, rfl⟩
  · clear ha
    induction mounts with
    | nil => rfl
    | cons m rest ih => simp [remountLoop, ih]
  · clear ha
    induction mounts with
    | nil => rfl
    | cons m rest ih => simp [remountLoop, ih]
  · clear ha
    induction mounts with
    | nil => rfl
    | cons m rest ih => simp [remountLoop, ih]

/-- Witness for C4: an environment whose unmounts all fail, two live
recorded mounts — the host outcome is the fail-fast trace with both mounts
counted failed and zero remounted. -/
theorem C4_failure_policies_witness :
    rollbackHost (fun c => match c with | RemoteCmd.umount _ => false | _ => true)
        ["/a".data, "/b".data]
        [⟨"/a".data, "va".data, "1.1.1.1".data, "vers=3".data⟩,
         ⟨"/b".data, "vb".data, "1.1.1.1".data, "vers=3".data⟩] =
      ⟨(rollbackUnmounts (fun c => match c with | RemoteCmd.umount _ => false | _ => true)
          ["/a".data, "/b".data]
          [⟨"/a".data, "va".data, "1.1.1.1".data, "vers=3".data⟩,
           ⟨"/b".data, "vb".data, "1.1.1.1".data, "vers=3".data⟩]).1,
        2, 0⟩ :=
  ((C4_failure_policies _ _ _).2.1 (by decide)).1

/-- C7: when every recorded mount of every host (with a saved IP) is
already live, the remount plan is empty, the phase reports zero mounts to
restore, succeeds, and issues no command. -/
theorem C7_remount_idempotent (query : Str → FindmntResult) (env : Str → CmdEnv)
    (dns : Str → Bool) (ck : Checkpoint)
    (hlive : ∀ p ∈ ck, p.2.ip ≠ [] → ∀ m ∈ p.2.mounts,
      m.mount_point ∈ (remountLiveMounts (query p.2.ip)).map (fun x => x.mount_point)) :
    remountPlan query ck = [] ∧
    do_remount_run query env dns ck = (true, 0, 0, []) := by
  have hplan : remountPlan query ck = [] := by
    induction ck with
    | nil => rfl
    | cons p rest ih =>
      have hrest := ih (fun q hq => hlive q (List.mem_cons.mpr (Or.inr hq)))
      rcases p with ⟨name, vd⟩
      by_cases hip : vd.ip = []
      · simpa [remountPlan, hip] using hrest
      · by_cases hm : vd.mounts = []
        · simpa [remountPlan, hip, hm] using hrest
        · have hfil : vd.mounts.filter
              (fun m => !(decide (m.mount_point ∈
                (remountLiveMounts (query vd.ip)).map (fun x => x.mount_point)))) = [] := by
            rw [List.filter_eq_nil_iff]
            intro m hm2
            have hmem := hlive (name, vd) (by simp) hip m hm2
            simp [hmem]
          simp only [remountPlan]
          rw [if_neg hip, if_neg hm, hfil]
          simpa using hrest
  refine ⟨hplan, ?_⟩
  simp [do_remount_run, hplan, totalMounts]

/-- Witness for C7: one host whose single recorded mount point is present
in the live inventory returned by the query. -/
theorem C7_remount_idempotent_witness :
    do_remount_run
      (fun _ => FindmntResult.success "x".data (some (Json.obj
        [("filesystems".data, Json.arr [Json.obj
          [("source".data, Json.str "10.0.0.5:/volumes/v".data),
           ("target".data, Json.str "/data".data),
           ("options".data, Json.str "vers=3".data)]])])))
      (fun _ _ => true) (fun _ => true)
      [("vm1".data, ⟨"1.2.3.4".data,
        [⟨"/data".data, "v".data, "10.0.0.5".data, "vers=3".data⟩]⟩)] =
    (true, 0, 0, []) :=
  (C7_remount_idempotent _ _ _ _ (by decide)).2

/-- C8: host fanout isolates failures — the fleet tallies and trace are the
per-host sums/concatenation (each host's outcome is a function of that host
alone), the capture collection loop is a per-host filterMap, and in the
concrete two-host scenario where host A's phase fails (unreachable DNS) and
host B's succeeds, the aggregate reports 1 succeeded of 2 total and B's
commands are exactly its own. -/
theorem C8_fanout_isolation (env : Str → CmdEnv) (dns : Str → Bool)
    (hosts : List (Str × VMData)) (query : Str → FindmntResult) (vms : List VMEntry) :
    (remountFleet env dns hosts).1 =
      (hosts.map (fun h => (remountHost (env h.2.ip) (dns h.2.ip) h.2.mounts).failed)).sum ∧
    (remountFleet env dns hosts).2.1 =
      (hosts.map (fun h => (remountHost (env h.2.ip) (dns h.2.ip) h.2.mounts).succeeded)).sum ∧
    (remountFleet env dns hosts).2.2 =
      (hosts.map (fun h => (remountHost (env h.2.ip) (dns h.2.ip) h.2.mounts).trace.map
        (fun c => (h.2.ip, c)))).flatten ∧
    unmountCollect query vms = vms.filterMap (fun vm =>
      match get_remote_mounts (query vm.public_ip) with
      | none => none
      | some ms => some (vm.name, (⟨vm.public_ip, ms⟩ : VMData))) ∧
    remountFleet (fun _ _ => true) (fun ip => ip != "1.1.1.1".data)
      [("A".data, ⟨"1.1.1.1".data,
         [⟨"/a".data, "va".data, "10.0.0.1".data, "vers=3".data⟩]⟩),
       ("B".data, ⟨"2.2.2.2".data,
         [⟨"/b".data, "vb".data, "10.0.0.2".data, "vers=3".data⟩]⟩)] =
      (1, 1, [("2.2.2.2".data, RemoteCmd.mkdirp "/b".data),
              ("2.2.2.2".data, RemoteCmd.mountDns "vb".data "/b".data)]) ∧
    totalMounts
      [("A".data, ⟨"1.1.1.1".data,
         [⟨"/a".data, "va".data, "10.0.0.1".data, "vers=3".data⟩]⟩),
       ("B".data, ⟨"2.2.2.2".data,
         [⟨"/b".data, "vb".data, "10.0.0.2".data, "vers=3".data⟩]⟩)] = 2 := by
  refine ⟨?_, ?_, ?_, ?_, by decide, by decide⟩
  · induction hosts with
    | nil => rfl
    | cons h rest ih => simp [remountFleet, ih]
  · induction hosts with
    | nil => rfl
    | cons h rest ih => simp [remountFleet, ih]
  · induction hosts with
    | nil => rfl
    | cons h rest ih => simp [remountFleet, ih]
  · induction vms with
    | nil => rfl
    | cons vm rest ih =>
      cases hq : get_remote_mounts (query vm.public_ip) with
      | none => simp [unmountCollect, hq, ih, List.filterMap_cons]
      | some ms => simp [unmountCollect, hq, ih, List.filterMap_cons]

end Migrate
